import Mathlib

/-!
Shallow embedding of the proposal-ledger contract in
`src/core/contract/src/lib.rs` (crate `nvoter`).

The Rust contract stores `u128` counters and four `BTreeMap`s keyed by
proposal id.  We model an identity (`near_sdk::AccountId`) as a `String`,
each `BTreeMap<u128, V>` as a lookup function `Nat → Option V`, and the
`u128`/`usize` counters as `Nat`.  The counters only ever grow by `+ 1`
per host call and the spec describes them as monotonically increasing,
so integer wrap-around (whose behaviour would depend on the build
profile, which is not part of the sources) is outside the model.

Each public method that can `assert!`/`unwrap` is embedded as a function
returning `Except VoteError (Contract × α)`: in the source every
assertion precedes every state mutation, and the hosting runtime aborts
the whole call on a panic, so a failing call leaves the ledger unchanged.
-/

namespace NVoter

/-- Identities (`near_sdk::AccountId`) are opaque authenticated strings. -/
abbrev AccountId := String

/-- The ways a mutating call can abort.  `notFound` is the
`"Proposal does not Exist"` assertion, `alreadyClosed` is the
`"Proposal has Already Closed!"` assertion, `notAuthorized` is the
`assert_eq!(&caller, owner)` check, and `missingEntry` models
`Option::unwrap` aborting on an absent map entry (dead code in every
reachable ledger state). -/
inductive VoteError where
  | notFound
  | alreadyClosed
  | notAuthorized
  | missingEntry
deriving DecidableEq, Repr

/-- Insert a key/value pair into a map, as `BTreeMap::insert`. -/
def mapInsert {α : Type} (m : Nat → Option α) (k : Nat) (v : α) : Nat → Option α :=
  fun j => if j = k then some v else m j

/-- Remove a key from a map, as `BTreeMap::remove`. -/
def mapRemove {α : Type} (m : Nat → Option α) (k : Nat) : Nat → Option α :=
  fun j => if j = k then none else m j

/-- The contract state (`struct Contract` in `lib.rs`). -/
structure Contract where
  proposal_count : Nat
  successful_proposal_count : Nat
  rejected_proposal_count : Nat
  proposal_vals : Nat → Option String
  proposal_owners : Nat → Option AccountId
  proposal_votes : Nat → Option (List (AccountId × Bool))
  proposal_fate : Nat → Option Bool

/-- `impl Default for Contract`: zero counters, empty maps. -/
def Contract.default : Contract where
  proposal_count := 0
  successful_proposal_count := 0
  rejected_proposal_count := 0
  proposal_vals := fun _ => none
  proposal_owners := fun _ => none
  proposal_votes := fun _ => none
  proposal_fate := fun _ => none

/-- `get_proposal_count`: returns the proposal counter. -/
def Contract.get_proposal_count (c : Contract) : Nat :=
  c.proposal_count

/-- `get_all_proposals`: returns (a clone of) the body map. -/
def Contract.get_all_proposals (c : Contract) : Nat → Option String :=
  c.proposal_vals

/-- `get_all_votes`: empty vector when the id has no vote entry,
otherwise the stored vote vector.  This query has no assertion and so
never fails. -/
def Contract.get_all_votes (c : Contract) (proposal_id : Nat) :
    List (AccountId × Bool) :=
  match c.proposal_votes proposal_id with
  | none => []
  | some votes_vec => votes_vec

/-- `create_proposal`: allocates `proposal_count + 1` as the new id,
stores text, owner and an empty vote vector under it.  The Rust method
has no return value; the second component is its `()` result.  The
`owner` argument stands for `env::predecessor_account_id()`. -/
def Contract.create_proposal (c : Contract) (owner : AccountId)
    (proposal_text : String) : Contract × Unit :=
  let new_prop_count := c.proposal_count + 1
  ({ c with
      proposal_count := new_prop_count
      proposal_vals := mapInsert c.proposal_vals new_prop_count proposal_text
      proposal_owners := mapInsert c.proposal_owners new_prop_count owner
      proposal_votes := mapInsert c.proposal_votes new_prop_count [] }, ())

/-- The `upvotes` tally loop of `close_proposal`/`void_proposal`:
fold over the vote vector, adding one for every `true` choice. -/
def upvotes (votes_vec : List (AccountId × Bool)) : Nat :=
  votes_vec.foldl (fun acc item => if item.2 then acc + 1 else acc) 0

/-- `vote_on_proposal`: assert the proposal exists, assert its fate is
unset, then append `(voter, vote_choice)` to its vote vector (the source
does a `remove` followed by an `insert` of the extended clone). -/
def Contract.vote_on_proposal (c : Contract) (voter : AccountId)
    (proposal_id : Nat) (vote_choice : Bool) :
    Except VoteError (Contract × Unit) :=
  if (c.proposal_vals proposal_id).isNone then
    .error .notFound
  else if (c.proposal_fate proposal_id).isSome then
    .error .alreadyClosed
  else
    match c.proposal_votes proposal_id with
    | none => .error .missingEntry
    | some votes_vec =>
      .ok ({ c with
              proposal_votes :=
                mapInsert (mapRemove c.proposal_votes proposal_id) proposal_id
                  (votes_vec ++ [(voter, vote_choice)]) }, ())

/-- `close_proposal`: assert existence, openness and ownership, tally
`upvotes`, then accept iff `2 * upvotes >= votes_vec.len()`, recording
the fate and bumping the matching counter. -/
def Contract.close_proposal (c : Contract) (caller : AccountId)
    (proposal_id : Nat) : Except VoteError (Contract × Bool) :=
  if (c.proposal_vals proposal_id).isNone then
    .error .notFound
  else if (c.proposal_fate proposal_id).isSome then
    .error .alreadyClosed
  else
    match c.proposal_owners proposal_id with
    | none => .error .missingEntry
    | some owner =>
      if caller = owner then
        match c.proposal_votes proposal_id with
        | none => .error .missingEntry
        | some votes_vec =>
          if 2 * upvotes votes_vec ≥ votes_vec.length then
            .ok ({ c with
                    proposal_fate := mapInsert c.proposal_fate proposal_id true
                    successful_proposal_count :=
                      c.successful_proposal_count + 1 }, true)
          else
            .ok ({ c with
                    proposal_fate := mapInsert c.proposal_fate proposal_id false
                    rejected_proposal_count :=
                      c.rejected_proposal_count + 1 }, false)
      else .error .notAuthorized

/-- `void_proposal`: same three preconditions as `close_proposal`; when
`upvotes == 0` record fate `false` and bump the rejected counter,
otherwise change nothing and return `false`. -/
def Contract.void_proposal (c : Contract) (caller : AccountId)
    (proposal_id : Nat) : Except VoteError (Contract × Bool) :=
  if (c.proposal_vals proposal_id).isNone then
    .error .notFound
  else if (c.proposal_fate proposal_id).isSome then
    .error .alreadyClosed
  else
    match c.proposal_owners proposal_id with
    | none => .error .missingEntry
    | some owner =>
      if caller = owner then
        match c.proposal_votes proposal_id with
        | none => .error .missingEntry
        | some votes_vec =>
          if upvotes votes_vec = 0 then
            .ok ({ c with
                    proposal_fate := mapInsert c.proposal_fate proposal_id false
                    rejected_proposal_count :=
                      c.rejected_proposal_count + 1 }, true)
          else
            .ok (c, false)
      else .error .notAuthorized

/-- Modelled from the spec: the hosting runtime executes each call
all-or-nothing, so a call that aborts on a failed assertion leaves the
ledger exactly as it was (`src/` holds only the contract, not the host). -/
def resultState {α : Type} (c : Contract) (r : Except VoteError (Contract × α)) :
    Contract :=
  match r with
  | .ok p => p.1
  | .error _ => c

/-- One host call against the ledger, with its caller identity. -/
inductive Action where
  | create (caller : AccountId) (text : String)
  | vote (caller : AccountId) (id : Nat) (choice : Bool)
  | close (caller : AccountId) (id : Nat)
  | void (caller : AccountId) (id : Nat)

/-- The ledger state after one host call (failed calls change nothing). -/
def Contract.applyAction (c : Contract) (a : Action) : Contract :=
  match a with
  | .create caller text => (c.create_proposal caller text).1
  | .vote caller id choice => resultState c (c.vote_on_proposal caller id choice)
  | .close caller id => resultState c (c.close_proposal caller id)
  | .void caller id => resultState c (c.void_proposal caller id)

/-- Ledger states reachable from `Contract::default` by host calls. -/
inductive Reachable : Contract → Prop where
  | init : Reachable Contract.default
  | step {c : Contract} (a : Action) : Reachable c → Reachable (c.applyAction a)

/-- The number of proposals whose fate has been resolved. -/
def resolvedCount (c : Contract) : Nat :=
  ((Finset.Icc 1 c.proposal_count).filter
    (fun k => (c.proposal_fate k).isSome)).card

/-! ### Map lemmas -/

@[simp] lemma mapInsert_self {α : Type} (m : Nat → Option α) (k : Nat) (v : α) :
    mapInsert m k v k = some v := by
  simp [mapInsert]

lemma mapInsert_ne {α : Type} (m : Nat → Option α) (k : Nat) (v : α) {j : Nat}
    (h : j ≠ k) : mapInsert m k v j = m j := by
  simp [mapInsert, h]

lemma mapRemove_ne {α : Type} (m : Nat → Option α) (k : Nat) {j : Nat}
    (h : j ≠ k) : mapRemove m k j = m j := by
  simp [mapRemove, h]

/-! ### The tally loop -/

lemma upvotes_aux (l : List (AccountId × Bool)) (n : Nat) :
    l.foldl (fun acc item => if item.2 then acc + 1 else acc) n =
      n + l.countP (fun item => item.2) := by
  induction l generalizing n with
  | nil => simp
  | cons a tl ih =>
    simp only [List.foldl_cons, List.countP_cons, ih]
    by_cases ha : a.2 <;> (simp [ha]; try omega)

/-- The `upvotes` loop counts exactly the votes whose choice is `true`. -/
lemma upvotes_eq_countP (l : List (AccountId × Bool)) :
    upvotes l = l.countP (fun item => item.2) := by
  simpa [upvotes] using upvotes_aux l 0

/-! ### Inversion lemmas for the mutating calls -/

/-- A successful vote means: the proposal exists, is open, has a vote
vector, and the result re-inserts the extended vote vector. -/
lemma vote_ok_elim (c : Contract) (voter : AccountId) (id : Nat)
    (choice : Bool) (p : Contract × Unit)
    (hres : c.vote_on_proposal voter id choice = .ok p) :
    ∃ vs, c.proposal_votes id = some vs ∧ (c.proposal_vals id).isSome ∧
      c.proposal_fate id = none ∧
      p = ({ c with
              proposal_votes :=
                mapInsert (mapRemove c.proposal_votes id) id
                  (vs ++ [(voter, choice)]) }, ()) := by
  by_cases h1 : (c.proposal_vals id).isNone
  · simp [Contract.vote_on_proposal, h1] at hres
  · by_cases h2 : (c.proposal_fate id).isSome
    · simp [Contract.vote_on_proposal, h1, h2] at hres
    · cases hvv : c.proposal_votes id with
      | none => simp [Contract.vote_on_proposal, h1, h2, hvv] at hres
      | some vs =>
        simp only [Contract.vote_on_proposal, h1, h2, hvv] at hres
        refine ⟨vs, rfl, ?_, Option.not_isSome_iff_eq_none.mp h2, ?_⟩
        · exact Option.ne_none_iff_isSome.mp
            (by simpa [Option.isNone_iff_eq_none] using h1)
        · simpa [eq_comm] using hres

/-- A successful close means: the proposal exists, is open, the caller
is the owner, and the result records the majority verdict. -/
lemma close_ok_elim (c : Contract) (caller : AccountId) (id : Nat)
    (p : Contract × Bool)
    (hres : c.close_proposal caller id = .ok p) :
    ∃ vs, c.proposal_votes id = some vs ∧ (c.proposal_vals id).isSome ∧
      c.proposal_fate id = none ∧ c.proposal_owners id = some caller ∧
      ((2 * upvotes vs ≥ vs.length ∧
        p = ({ c with
                proposal_fate := mapInsert c.proposal_fate id true
                successful_proposal_count :=
                  c.successful_proposal_count + 1 }, true)) ∨
       (¬ 2 * upvotes vs ≥ vs.length ∧
        p = ({ c with
                proposal_fate := mapInsert c.proposal_fate id false
                rejected_proposal_count :=
                  c.rejected_proposal_count + 1 }, false))) := by
  by_cases h1 : (c.proposal_vals id).isNone
  · simp [Contract.close_proposal, h1] at hres
  · by_cases h2 : (c.proposal_fate id).isSome
    · simp [Contract.close_proposal, h1, h2] at hres
    · cases ho : c.proposal_owners id with
      | none => simp [Contract.close_proposal, h1, h2, ho] at hres
      | some owner =>
        by_cases hc : caller = owner
        · cases hvv : c.proposal_votes id with
          | none => simp [Contract.close_proposal, h1, h2, ho, hc, hvv] at hres
          | some vs =>
            subst hc
            refine ⟨vs, rfl, ?_, Option.not_isSome_iff_eq_none.mp h2, rfl, ?_⟩
            · exact Option.ne_none_iff_isSome.mp
                (by simpa [Option.isNone_iff_eq_none] using h1)
            · by_cases hm : 2 * upvotes vs ≥ vs.length
              · left
                simp only [Contract.close_proposal, h1, h2, ho, hvv, hm] at hres
                exact ⟨hm, by simpa [eq_comm] using hres⟩
              · right
                simp only [Contract.close_proposal, h1, h2, ho, hvv, hm] at hres
                exact ⟨hm, by simpa [eq_comm] using hres⟩
        · simp [Contract.close_proposal, h1, h2, ho, hc] at hres

/-- A successful void means: the proposal exists, is open, the caller is
the owner, and the result either rejects a yes-less proposal or leaves
everything untouched. -/
lemma void_ok_elim (c : Contract) (caller : AccountId) (id : Nat)
    (p : Contract × Bool)
    (hres : c.void_proposal caller id = .ok p) :
    ∃ vs, c.proposal_votes id = some vs ∧ (c.proposal_vals id).isSome ∧
      c.proposal_fate id = none ∧ c.proposal_owners id = some caller ∧
      ((upvotes vs = 0 ∧
        p = ({ c with
                proposal_fate := mapInsert c.proposal_fate id false
                rejected_proposal_count :=
                  c.rejected_proposal_count + 1 }, true)) ∨
       (upvotes vs ≠ 0 ∧ p = (c, false))) := by
  by_cases h1 : (c.proposal_vals id).isNone
  · simp [Contract.void_proposal, h1] at hres
  · by_cases h2 : (c.proposal_fate id).isSome
    · simp [Contract.void_proposal, h1, h2] at hres
    · cases ho : c.proposal_owners id with
      | none => simp [Contract.void_proposal, h1, h2, ho] at hres
      | some owner =>
        by_cases hc : caller = owner
        · cases hvv : c.proposal_votes id with
          | none => simp [Contract.void_proposal, h1, h2, ho, hc, hvv] at hres
          | some vs =>
            subst hc
            refine ⟨vs, rfl, ?_, Option.not_isSome_iff_eq_none.mp h2, rfl, ?_⟩
            · exact Option.ne_none_iff_isSome.mp
                (by simpa [Option.isNone_iff_eq_none] using h1)
            · by_cases hm : upvotes vs = 0
              · left
                simp only [Contract.void_proposal, h1, h2, ho, hvv, hm] at hres
                exact ⟨hm, by simpa [eq_comm] using hres⟩
              · right
                simp only [Contract.void_proposal, h1, h2, ho, hvv, hm] at hres
                exact ⟨hm, by simpa [eq_comm] using hres⟩
        · simp [Contract.void_proposal, h1, h2, ho, hc] at hres

/-! ### The ledger invariant -/

/-- Invariant of every reachable ledger state: proposal keys are dense
in `[1, proposal_count]` across all four maps, fates only exist for
stored proposals, and the two outcome counters add up to the number of
resolved proposals. -/
structure Inv (c : Contract) : Prop where
  vals_keys : ∀ k, (c.proposal_vals k).isSome → 1 ≤ k ∧ k ≤ c.proposal_count
  fate_vals : ∀ k, (c.proposal_fate k).isSome → (c.proposal_vals k).isSome
  votes_vals : ∀ k, (c.proposal_votes k).isSome = (c.proposal_vals k).isSome
  owners_vals : ∀ k, (c.proposal_owners k).isSome = (c.proposal_vals k).isSome
  counters : c.successful_proposal_count + c.rejected_proposal_count =
    resolvedCount c

lemma Icc_one_succ (n : Nat) :
    Finset.Icc 1 (n + 1) = insert (n + 1) (Finset.Icc 1 n) := by
  rw [← Nat.Ico_succ_right, Nat.Ico_succ_right_eq_insert_Ico (by omega),
    Nat.Ico_succ_right]

lemma card_resolved_insert (n id : Nat) (f : Nat → Option Bool) (r : Bool)
    (h1 : 1 ≤ id) (h2 : id ≤ n) (h0 : f id = none) :
    ((Finset.Icc 1 n).filter (fun k => (mapInsert f id r k).isSome)).card =
      ((Finset.Icc 1 n).filter (fun k => (f k).isSome)).card + 1 := by
  have hset : (Finset.Icc 1 n).filter (fun k => (mapInsert f id r k).isSome) =
      insert id ((Finset.Icc 1 n).filter (fun k => (f k).isSome)) := by
    ext k
    by_cases hk : k = id
    · subst hk
      simp [Finset.mem_filter, Finset.mem_insert, Finset.mem_Icc, mapInsert,
        h1, h2]
    · simp [Finset.mem_filter, Finset.mem_insert, mapInsert, hk]
  rw [hset, Finset.card_insert_of_not_mem (by simp [Finset.mem_filter, h0])]

lemma card_resolved_extend (n : Nat) (f : Nat → Option Bool)
    (h0 : f (n + 1) = none) :
    ((Finset.Icc 1 (n + 1)).filter (fun k => (f k).isSome)).card =
      ((Finset.Icc 1 n).filter (fun k => (f k).isSome)).card := by
  rw [Icc_one_succ, Finset.filter_insert, if_neg (by simp [h0])]

lemma inv_default : Inv Contract.default := by
  refine ⟨?_, ?_, ?_, ?_, ?_⟩ <;> simp [Contract.default, resolvedCount]

lemma inv_create (c : Contract) (owner : AccountId) (text : String)
    (h : Inv c) : Inv (c.create_proposal owner text).1 := by
  have h0 : c.proposal_fate (c.proposal_count + 1) = none := by
    cases hf : c.proposal_fate (c.proposal_count + 1) with
    | none => rfl
    | some b =>
      have hs : (c.proposal_fate (c.proposal_count + 1)).isSome := by simp [hf]
      have := h.vals_keys _ (h.fate_vals _ hs)
      omega
  refine ⟨?_, ?_, ?_, ?_, ?_⟩
  · intro k hk
    have hk' : (mapInsert c.proposal_vals (c.proposal_count + 1) text k).isSome :=
      hk
    show 1 ≤ k ∧ k ≤ c.proposal_count + 1
    by_cases hkc : k = c.proposal_count + 1
    · omega
    · rw [mapInsert_ne _ _ _ hkc] at hk'
      have := h.vals_keys k hk'
      omega
  · intro k hk
    have hk' : (c.proposal_fate k).isSome := hk
    show (mapInsert c.proposal_vals (c.proposal_count + 1) text k).isSome
    by_cases hkc : k = c.proposal_count + 1
    · subst hkc; simp
    · rw [mapInsert_ne _ _ _ hkc]
      exact h.fate_vals k hk'
  · intro k
    show (mapInsert c.proposal_votes (c.proposal_count + 1) [] k).isSome =
      (mapInsert c.proposal_vals (c.proposal_count + 1) text k).isSome
    by_cases hkc : k = c.proposal_count + 1
    · subst hkc; simp
    · rw [mapInsert_ne _ _ _ hkc, mapInsert_ne _ _ _ hkc]
      exact h.votes_vals k
  · intro k
    show (mapInsert c.proposal_owners (c.proposal_count + 1) owner k).isSome =
      (mapInsert c.proposal_vals (c.proposal_count + 1) text k).isSome
    by_cases hkc : k = c.proposal_count + 1
    · subst hkc; simp
    · rw [mapInsert_ne _ _ _ hkc, mapInsert_ne _ _ _ hkc]
      exact h.owners_vals k
  · show c.successful_proposal_count + c.rejected_proposal_count =
      resolvedCount (c.create_proposal owner text).1
    have hrc : resolvedCount (c.create_proposal owner text).1 = resolvedCount c := by
      show ((Finset.Icc 1 (c.proposal_count + 1)).filter
        (fun k => (c.proposal_fate k).isSome)).card = resolvedCount c
      rw [card_resolved_extend c.proposal_count c.proposal_fate h0]
      rfl
    rw [hrc]
    exact h.counters

/-- Recording a fate for an open stored proposal while adding one to the
counters preserves the invariant. -/
lemma inv_resolve (c : Contract) (id : Nat) (r : Bool) (s j : Nat) (h : Inv c)
    (hval : (c.proposal_vals id).isSome)
    (hfate : c.proposal_fate id = none)
    (hsum : s + j =
      c.successful_proposal_count + c.rejected_proposal_count + 1) :
    Inv { c with
           proposal_fate := mapInsert c.proposal_fate id r
           successful_proposal_count := s
           rejected_proposal_count := j } := by
  obtain ⟨hk1, hk2⟩ := h.vals_keys id hval
  refine ⟨h.vals_keys, ?_, h.votes_vals, h.owners_vals, ?_⟩
  · intro k hk
    have hk' : (mapInsert c.proposal_fate id r k).isSome := hk
    show (c.proposal_vals k).isSome
    by_cases hkc : k = id
    · subst hkc; exact hval
    · rw [mapInsert_ne _ _ _ hkc] at hk'
      exact h.fate_vals k hk'
  · show s + j = resolvedCount { c with
      proposal_fate := mapInsert c.proposal_fate id r
      successful_proposal_count := s
      rejected_proposal_count := j }
    have hrc : resolvedCount { c with
        proposal_fate := mapInsert c.proposal_fate id r
        successful_proposal_count := s
        rejected_proposal_count := j } = resolvedCount c + 1 := by
      show ((Finset.Icc 1 c.proposal_count).filter
        (fun k => (mapInsert c.proposal_fate id r k).isSome)).card =
        resolvedCount c + 1
      rw [card_resolved_insert c.proposal_count id c.proposal_fate r hk1 hk2
        hfate]
      rfl
    rw [hrc]
    have := h.counters
    omega

lemma inv_step (c : Contract) (a : Action) (h : Inv c) :
    Inv (c.applyAction a) := by
  cases a with
  | create caller text => exact inv_create c caller text h
  | vote voter id choice =>
    cases hres : c.vote_on_proposal voter id choice with
    | error e => simpa [Contract.applyAction, resultState, hres] using h
    | ok p =>
      obtain ⟨vs, hvv, hval, hfate, hp⟩ := vote_ok_elim c voter id choice p hres
      have hstep : c.applyAction (.vote voter id choice) = p.1 := by
        simp [Contract.applyAction, resultState, hres]
      rw [hstep, hp]
      refine ⟨h.vals_keys, h.fate_vals, ?_, h.owners_vals, h.counters⟩
      intro k
      show (mapInsert (mapRemove c.proposal_votes id) id
        (vs ++ [(voter, choice)]) k).isSome = (c.proposal_vals k).isSome
      by_cases hk : k = id
      · subst hk; simp [hval]
      · rw [mapInsert_ne _ _ _ hk, mapRemove_ne _ _ hk]
        exact h.votes_vals k
  | close caller id =>
    cases hres : c.close_proposal caller id with
    | error e => simpa [Contract.applyAction, resultState, hres] using h
    | ok p =>
      obtain ⟨vs, hvv, hval, hfate, hown, hcases⟩ :=
        close_ok_elim c caller id p hres
      have hstep : c.applyAction (.close caller id) = p.1 := by
        simp [Contract.applyAction, resultState, hres]
      rw [hstep]
      rcases hcases with ⟨hm, hp⟩ | ⟨hm, hp⟩ <;> rw [hp]
      · exact inv_resolve c id true (c.successful_proposal_count + 1)
          c.rejected_proposal_count h hval hfate (by omega)
      · exact inv_resolve c id false c.successful_proposal_count
          (c.rejected_proposal_count + 1) h hval hfate (by omega)
  | void caller id =>
    cases hres : c.void_proposal caller id with
    | error e => simpa [Contract.applyAction, resultState, hres] using h
    | ok p =>
      obtain ⟨vs, hvv, hval, hfate, hown, hcases⟩ :=
        void_ok_elim c caller id p hres
      have hstep : c.applyAction (.void caller id) = p.1 := by
        simp [Contract.applyAction, resultState, hres]
      rw [hstep]
      rcases hcases with ⟨hm, hp⟩ | ⟨hm, hp⟩ <;> rw [hp]
      · exact inv_resolve c id false c.successful_proposal_count
          (c.rejected_proposal_count + 1) h hval hfate (by omega)
      · exact h

/-- Every reachable ledger state satisfies the invariant. -/
lemma reachable_inv {c : Contract} (h : Reachable c) : Inv c := by
  induction h with
  | init => exact inv_default
  | step a _ ih => exact inv_step _ a ih

/-! ### Claim theorems (no reachability needed) -/

/-- Claim C1: `close_proposal`, called by the owner on an existing
unresolved proposal, accepts iff `2 * yes >= total` where `yes` counts
the `true` choices and `total` is the vote-vector length; on accept it
sets fate `accepted` (`true`), bumps the successful counter and returns
`true`, on reject it sets fate `rejected` (`false`), bumps the rejected
counter and returns `false`.  Zero votes and an exact half are accepted
since the test is `≥`. -/
theorem claim_C1_close_majority (c : Contract) (caller : AccountId) (id : Nat)
    (t : String) (vs : List (AccountId × Bool))
    (hval : c.proposal_vals id = some t)
    (hfate : c.proposal_fate id = none)
    (hown : c.proposal_owners id = some caller)
    (hvotes : c.proposal_votes id = some vs) :
    upvotes vs = vs.countP (fun item => item.2) ∧
    (2 * upvotes vs ≥ vs.length →
      c.close_proposal caller id =
        .ok ({ c with
                proposal_fate := mapInsert c.proposal_fate id true
                successful_proposal_count :=
                  c.successful_proposal_count + 1 }, true)) ∧
    (¬ 2 * upvotes vs ≥ vs.length →
      c.close_proposal caller id =
        .ok ({ c with
                proposal_fate := mapInsert c.proposal_fate id false
                rejected_proposal_count :=
                  c.rejected_proposal_count + 1 }, false)) := by
  refine ⟨upvotes_eq_countP vs, fun h => ?_, fun h => ?_⟩
  · simp [Contract.close_proposal, hval, hfate, hown, hvotes, h]
  · simp [Contract.close_proposal, hval, hfate, hown, hvotes, h]

/-- Claim C2: `void_proposal`, called by the owner on an existing
unresolved proposal, succeeds (returns `true`, sets fate `rejected`,
bumps the rejected counter) iff the yes-vote count is exactly `0`,
however many opposing votes exist; otherwise it returns `false` and the
state is left untouched, so the proposal stays open. -/
theorem claim_C2_void_when_no_yes (c : Contract) (caller : AccountId) (id : Nat)
    (t : String) (vs : List (AccountId × Bool))
    (hval : c.proposal_vals id = some t)
    (hfate : c.proposal_fate id = none)
    (hown : c.proposal_owners id = some caller)
    (hvotes : c.proposal_votes id = some vs) :
    (upvotes vs = 0 →
      c.void_proposal caller id =
        .ok ({ c with
                proposal_fate := mapInsert c.proposal_fate id false
                rejected_proposal_count :=
                  c.rejected_proposal_count + 1 }, true)) ∧
    (upvotes vs ≠ 0 →
      c.void_proposal caller id = .ok (c, false)) := by
  refine ⟨fun h => ?_, fun h => ?_⟩ <;>
    simp [Contract.void_proposal, hval, hfate, hown, hvotes, h]

/-- Claim C10: in `close_proposal` and `void_proposal` the checks run in
the order existence, openness, ownership: an unknown id fails `NotFound`
for every caller, a resolved proposal fails `AlreadyClosed` even for a
non-owner, and `NotAuthorized` can only arise on an existing, still-open
proposal. -/
theorem claim_C10_check_order (c : Contract) (caller : AccountId) (id : Nat) :
    (c.proposal_vals id = none →
      c.close_proposal caller id = .error .notFound ∧
      c.void_proposal caller id = .error .notFound) ∧
    (∀ (t : String) (b : Bool), c.proposal_vals id = some t →
      c.proposal_fate id = some b →
      c.close_proposal caller id = .error .alreadyClosed ∧
      c.void_proposal caller id = .error .alreadyClosed) ∧
    (c.close_proposal caller id = .error .notAuthorized →
      (c.proposal_vals id).isSome ∧ c.proposal_fate id = none) ∧
    (c.void_proposal caller id = .error .notAuthorized →
      (c.proposal_vals id).isSome ∧ c.proposal_fate id = none) := by
  refine ⟨fun h => ?_, fun t b hv hf => ?_, fun h => ?_, fun h => ?_⟩
  · constructor <;> simp [Contract.close_proposal, Contract.void_proposal, h]
  · constructor <;> simp [Contract.close_proposal, Contract.void_proposal, hv, hf]
  · by_cases h1 : (c.proposal_vals id).isNone
    · simp [Contract.close_proposal, h1] at h
    · by_cases h2 : (c.proposal_fate id).isSome
      · simp [Contract.close_proposal, h1, h2] at h
      · exact ⟨Option.ne_none_iff_isSome.mp
            (by simpa [Option.isNone_iff_eq_none] using h1),
          Option.not_isSome_iff_eq_none.mp h2⟩
  · by_cases h1 : (c.proposal_vals id).isNone
    · simp [Contract.void_proposal, h1] at h
    · by_cases h2 : (c.proposal_fate id).isSome
      · simp [Contract.void_proposal, h1, h2] at h
      · exact ⟨Option.ne_none_iff_isSome.mp
            (by simpa [Option.isNone_iff_eq_none] using h1),
          Option.not_isSome_iff_eq_none.mp h2⟩

/-- Claim C6: failed preconditions abort the call with the whole ledger
untouched; in particular a non-owner close of an existing open proposal
fails with `NotAuthorized` and changes nothing. -/
theorem claim_C6_atomic_abort (c : Contract) (caller owner : AccountId)
    (id : Nat) (t : String)
    (hval : c.proposal_vals id = some t)
    (hfate : c.proposal_fate id = none)
    (hown : c.proposal_owners id = some owner)
    (hne : caller ≠ owner) :
    c.close_proposal caller id = .error .notAuthorized ∧
    c.applyAction (.close caller id) = c ∧
    (∀ (x : AccountId) (y : Nat) (z : Bool) (e : VoteError),
      c.vote_on_proposal x y z = .error e → c.applyAction (.vote x y z) = c) ∧
    (∀ (x : AccountId) (y : Nat) (e : VoteError),
      c.close_proposal x y = .error e → c.applyAction (.close x y) = c) ∧
    (∀ (x : AccountId) (y : Nat) (e : VoteError),
      c.void_proposal x y = .error e → c.applyAction (.void x y) = c) := by
  have hcl : c.close_proposal caller id = .error .notAuthorized := by
    simp [Contract.close_proposal, hval, hfate, hown, hne]
  refine ⟨hcl, ?_, fun x y z e h => ?_, fun x y e h => ?_, fun x y e h => ?_⟩ <;>
    simp [Contract.applyAction, resultState, hcl, *]

/-- Claim C8: voting on an existing open proposal appends exactly
`(voter, choice)` at the end of that proposal's vote vector, keeps every
earlier vote in casting order, and leaves every other proposal's votes
and all remaining state untouched; nothing stops repeat votes or a vote
by the owner (the `voter` here is arbitrary). -/
theorem claim_C8_vote_appends (c : Contract) (voter : AccountId) (id : Nat)
    (choice : Bool) (t : String) (vs : List (AccountId × Bool))
    (hval : c.proposal_vals id = some t)
    (hfate : c.proposal_fate id = none)
    (hvotes : c.proposal_votes id = some vs) :
    c.vote_on_proposal voter id choice =
      .ok ({ c with
              proposal_votes :=
                mapInsert (mapRemove c.proposal_votes id) id
                  (vs ++ [(voter, choice)]) }, ()) ∧
    (c.applyAction (.vote voter id choice)).proposal_votes id =
      some (vs ++ [(voter, choice)]) ∧
    (∀ k, k ≠ id →
      (c.applyAction (.vote voter id choice)).proposal_votes k =
        c.proposal_votes k) ∧
    (c.applyAction (.vote voter id choice)).proposal_vals = c.proposal_vals ∧
    (c.applyAction (.vote voter id choice)).proposal_fate = c.proposal_fate ∧
    (c.applyAction (.vote voter id choice)).successful_proposal_count =
      c.successful_proposal_count ∧
    (c.applyAction (.vote voter id choice)).rejected_proposal_count =
      c.rejected_proposal_count := by
  have hv : c.vote_on_proposal voter id choice =
      .ok ({ c with
              proposal_votes :=
                mapInsert (mapRemove c.proposal_votes id) id
                  (vs ++ [(voter, choice)]) }, ()) := by
    simp [Contract.vote_on_proposal, hval, hfate, hvotes]
  refine ⟨hv, ?_, fun k hk => ?_, ?_, ?_, ?_, ?_⟩
  · simp [Contract.applyAction, resultState, hv]
  · simp [Contract.applyAction, resultState, hv, mapInsert_ne, mapRemove_ne, hk]
  · simp [Contract.applyAction, resultState, hv]
  · simp [Contract.applyAction, resultState, hv]
  · simp [Contract.applyAction, resultState, hv]
  · simp [Contract.applyAction, resultState, hv]

/-! ### Claim theorems needing reachability -/

/-- Claim C3: in every reachable ledger state, once a proposal's fate is
set every later vote, close or void on that id fails with
`AlreadyClosed`, no host call ever changes that fate value, and a second
close right after a successful one fails with `AlreadyClosed` whatever
the first verdict was. -/
theorem claim_C3_fate_write_once (c : Contract) (id : Nat)
    (hr : Reachable c) :
    (∀ b, c.proposal_fate id = some b →
      (∀ (caller : AccountId) (choice : Bool),
        c.vote_on_proposal caller id choice = .error .alreadyClosed) ∧
      (∀ caller : AccountId,
        c.close_proposal caller id = .error .alreadyClosed) ∧
      (∀ caller : AccountId,
        c.void_proposal caller id = .error .alreadyClosed) ∧
      (∀ a : Action, (c.applyAction a).proposal_fate id = some b)) ∧
    (∀ (caller : AccountId) (p : Contract × Bool),
      c.close_proposal caller id = .ok p →
      ∀ caller2 : AccountId,
        p.1.close_proposal caller2 id = .error .alreadyClosed) := by
  have hinv := reachable_inv hr
  constructor
  · intro b hb
    have hsome : (c.proposal_fate id).isSome := by simp [hb]
    obtain ⟨t, ht⟩ := Option.isSome_iff_exists.mp (hinv.fate_vals id hsome)
    refine ⟨fun caller choice => ?_, fun caller => ?_, fun caller => ?_,
      fun a => ?_⟩
    · simp [Contract.vote_on_proposal, ht, hsome]
    · simp [Contract.close_proposal, ht, hsome]
    · simp [Contract.void_proposal, ht, hsome]
    · cases a with
      | create caller text =>
        simpa [Contract.applyAction, Contract.create_proposal] using hb
      | vote caller id2 choice =>
        cases hres : c.vote_on_proposal caller id2 choice with
        | error e => simpa [Contract.applyAction, resultState, hres] using hb
        | ok p =>
          obtain ⟨vs, hvv, hval2, hfate2, hp⟩ :=
            vote_ok_elim c caller id2 choice p hres
          have hstep : c.applyAction (.vote caller id2 choice) = p.1 := by
            simp [Contract.applyAction, resultState, hres]
          rw [hstep, hp]
          exact hb
      | close caller id2 =>
        cases hres : c.close_proposal caller id2 with
        | error e => simpa [Contract.applyAction, resultState, hres] using hb
        | ok p =>
          obtain ⟨vs, hvv, hval2, hfate2, hown2, hcase⟩ :=
            close_ok_elim c caller id2 p hres
          have hne : id ≠ id2 := by
            intro he
            rw [← he, hb] at hfate2
            cases hfate2
          have hstep : c.applyAction (.close caller id2) = p.1 := by
            simp [Contract.applyAction, resultState, hres]
          rw [hstep]
          rcases hcase with ⟨hm, hp⟩ | ⟨hm, hp⟩ <;> rw [hp] <;>
            · show mapInsert c.proposal_fate id2 _ id = some b
              rw [mapInsert_ne _ _ _ hne]
              exact hb
      | void caller id2 =>
        cases hres : c.void_proposal caller id2 with
        | error e => simpa [Contract.applyAction, resultState, hres] using hb
        | ok p =>
          obtain ⟨vs, hvv, hval2, hfate2, hown2, hcase⟩ :=
            void_ok_elim c caller id2 p hres
          have hne : id ≠ id2 := by
            intro he
            rw [← he, hb] at hfate2
            cases hfate2
          have hstep : c.applyAction (.void caller id2) = p.1 := by
            simp [Contract.applyAction, resultState, hres]
          rw [hstep]
          rcases hcase with ⟨hm, hp⟩ | ⟨hm, hp⟩ <;> rw [hp]
          · show mapInsert c.proposal_fate id2 _ id = some b
            rw [mapInsert_ne _ _ _ hne]
            exact hb
          · exact hb
  · intro caller p hok caller2
    obtain ⟨vs, hvv, hval2, hfate2, hown2, hcase⟩ :=
      close_ok_elim c caller id p hok
    obtain ⟨t, ht⟩ := Option.isSome_iff_exists.mp hval2
    rcases hcase with ⟨hm, hp⟩ | ⟨hm, hp⟩ <;> rw [hp] <;>
      simp [Contract.close_proposal, ht]

/-- Claim C4: in every reachable state the two outcome counters add up
to the number of proposals with a resolved fate; a successful close
bumps exactly the counter matching its verdict by one, a successful void
bumps exactly the rejected counter by one, and no host call ever
decreases either counter. -/
theorem claim_C4_counter_sum (c : Contract) (hr : Reachable c) :
    c.successful_proposal_count + c.rejected_proposal_count =
      resolvedCount c ∧
    (∀ (caller : AccountId) (id : Nat) (p : Contract × Bool),
      c.close_proposal caller id = .ok p →
      (p.2 = true →
        p.1.successful_proposal_count = c.successful_proposal_count + 1 ∧
        p.1.rejected_proposal_count = c.rejected_proposal_count) ∧
      (p.2 = false →
        p.1.rejected_proposal_count = c.rejected_proposal_count + 1 ∧
        p.1.successful_proposal_count = c.successful_proposal_count)) ∧
    (∀ (caller : AccountId) (id : Nat) (p : Contract × Bool),
      c.void_proposal caller id = .ok p → p.2 = true →
      p.1.rejected_proposal_count = c.rejected_proposal_count + 1 ∧
      p.1.successful_proposal_count = c.successful_proposal_count) ∧
    (∀ a : Action,
      c.successful_proposal_count ≤
        (c.applyAction a).successful_proposal_count ∧
      c.rejected_proposal_count ≤
        (c.applyAction a).rejected_proposal_count) := by
  refine ⟨(reachable_inv hr).counters, ?_, ?_, ?_⟩
  · intro caller id p hok
    obtain ⟨vs, hvv, hval2, hfate2, hown2, hcase⟩ :=
      close_ok_elim c caller id p hok
    rcases hcase with ⟨hm, hp⟩ | ⟨hm, hp⟩ <;> subst hp
    · exact ⟨fun _ => ⟨rfl, rfl⟩, fun hfalse => by simp at hfalse⟩
    · exact ⟨fun htrue => by simp at htrue, fun _ => ⟨rfl, rfl⟩⟩
  · intro caller id p hok
    obtain ⟨vs, hvv, hval2, hfate2, hown2, hcase⟩ :=
      void_ok_elim c caller id p hok
    rcases hcase with ⟨hm, hp⟩ | ⟨hm, hp⟩ <;> subst hp
    · exact fun _ => ⟨rfl, rfl⟩
    · intro htrue
      simp at htrue
  · intro a
    cases a with
    | create caller text => exact ⟨Nat.le_refl _, Nat.le_refl _⟩
    | vote voter id choice =>
      cases hres : c.vote_on_proposal voter id choice with
      | error e =>
        have hstep : c.applyAction (.vote voter id choice) = c := by
          simp [Contract.applyAction, resultState, hres]
        rw [hstep]
        exact ⟨Nat.le_refl _, Nat.le_refl _⟩
      | ok p =>
        obtain ⟨vs, hvv, hval2, hfate2, hp⟩ :=
          vote_ok_elim c voter id choice p hres
        have hstep : c.applyAction (.vote voter id choice) = p.1 := by
          simp [Contract.applyAction, resultState, hres]
        rw [hstep, hp]
        exact ⟨Nat.le_refl _, Nat.le_refl _⟩
    | close caller id =>
      cases hres : c.close_proposal caller id with
      | error e =>
        have hstep : c.applyAction (.close caller id) = c := by
          simp [Contract.applyAction, resultState, hres]
        rw [hstep]
        exact ⟨Nat.le_refl _, Nat.le_refl _⟩
      | ok p =>
        obtain ⟨vs, hvv, hval2, hfate2, hown2, hcase⟩ :=
          close_ok_elim c caller id p hres
        have hstep : c.applyAction (.close caller id) = p.1 := by
          simp [Contract.applyAction, resultState, hres]
        rw [hstep]
        rcases hcase with ⟨hm, hp⟩ | ⟨hm, hp⟩ <;> rw [hp]
        · exact ⟨Nat.le_succ _, Nat.le_refl _⟩
        · exact ⟨Nat.le_refl _, Nat.le_succ _⟩
    | void caller id =>
      cases hres : c.void_proposal caller id with
      | error e =>
        have hstep : c.applyAction (.void caller id) = c := by
          simp [Contract.applyAction, resultState, hres]
        rw [hstep]
        exact ⟨Nat.le_refl _, Nat.le_refl _⟩
      | ok p =>
        obtain ⟨vs, hvv, hval2, hfate2, hown2, hcase⟩ :=
          void_ok_elim c caller id p hres
        have hstep : c.applyAction (.void caller id) = p.1 := by
          simp [Contract.applyAction, resultState, hres]
        rw [hstep]
        rcases hcase with ⟨hm, hp⟩ | ⟨hm, hp⟩ <;> rw [hp]
        · exact ⟨Nat.le_refl _, Nat.le_succ _⟩
        · exact ⟨Nat.le_refl _, Nat.le_refl _⟩

/-- Claim C7: `get_all_votes` never fails; in a reachable state an
unknown id yields the empty sequence, and a stored vote vector is
returned as stored (casting order). -/
theorem claim_C7_get_all_votes_total (c : Contract) (id : Nat)
    (hr : Reachable c) :
    ((c.proposal_vals id).isNone → c.get_all_votes id = []) ∧
    (∀ vs, c.proposal_votes id = some vs → c.get_all_votes id = vs) := by
  have hinv := reachable_inv hr
  constructor
  · intro h
    cases hvv : c.proposal_votes id with
    | none => simp [Contract.get_all_votes, hvv]
    | some vs =>
      have hvs : (c.proposal_vals id).isSome := by
        rw [← hinv.votes_vals]
        simp [hvv]
      rw [Option.isNone_iff_eq_none] at h
      rw [h] at hvs
      cases hvs
  · intro vs hvv
    simp [Contract.get_all_votes, hvv]

/-! ### Sequences of creations (claim C5) -/

/-- One `create_proposal` call, dropping the unit result. -/
def createStep (c : Contract) (p : AccountId × String) : Contract :=
  (c.create_proposal p.1 p.2).1

/-- The ledger after a sequence of `create_proposal` calls from the
default state. -/
def createAll (l : List (AccountId × String)) : Contract :=
  l.foldl createStep Contract.default

@[simp] lemma createStep_count (c : Contract) (p : AccountId × String) :
    (createStep c p).proposal_count = c.proposal_count + 1 := rfl

lemma createStep_vals_self (c : Contract) (p : AccountId × String) :
    (createStep c p).proposal_vals (c.proposal_count + 1) = some p.2 := by
  simp [createStep, Contract.create_proposal]

lemma createStep_vals_ne (c : Contract) (p : AccountId × String) {k : Nat}
    (h : k ≠ c.proposal_count + 1) :
    (createStep c p).proposal_vals k = c.proposal_vals k := by
  show mapInsert c.proposal_vals (c.proposal_count + 1) p.2 k = _
  exact mapInsert_ne _ _ _ h

lemma createFold_count (l : List (AccountId × String)) :
    ∀ c : Contract,
      (l.foldl createStep c).proposal_count = c.proposal_count + l.length := by
  induction l with
  | nil => intro c; simp
  | cons p tl ih =>
    intro c
    simp only [List.foldl_cons, List.length_cons, ih, createStep_count]
    omega

lemma createFold_vals_low (l : List (AccountId × String)) :
    ∀ (c : Contract) (k : Nat), k ≤ c.proposal_count →
      (l.foldl createStep c).proposal_vals k = c.proposal_vals k := by
  induction l with
  | nil => intro c k _; rfl
  | cons p tl ih =>
    intro c k hk
    simp only [List.foldl_cons]
    rw [ih (createStep c p) k (by rw [createStep_count]; omega),
      createStep_vals_ne c p (by omega)]

lemma createFold_vals_high (l : List (AccountId × String)) :
    ∀ (c : Contract) (k : Nat), c.proposal_count + l.length < k →
      (l.foldl createStep c).proposal_vals k = c.proposal_vals k := by
  induction l with
  | nil => intro c k _; rfl
  | cons p tl ih =>
    intro c k hk
    simp only [List.length_cons] at hk
    simp only [List.foldl_cons]
    rw [ih (createStep c p) k (by rw [createStep_count]; omega),
      createStep_vals_ne c p (by omega)]

lemma createFold_vals_new (l : List (AccountId × String)) :
    ∀ (c : Contract) (i : Nat) (h : i < l.length),
      (l.foldl createStep c).proposal_vals (c.proposal_count + i + 1) =
        some (l.get ⟨i, h⟩).2 := by
  induction l with
  | nil => intro c i h; simp at h
  | cons p tl ih =>
    intro c i h
    simp only [List.foldl_cons]
    cases i with
    | zero =>
      rw [createFold_vals_low tl (createStep c p) (c.proposal_count + 0 + 1)
          (by simp)]
      show (createStep c p).proposal_vals (c.proposal_count + 0 + 1) = some p.2
      have : c.proposal_count + 0 + 1 = c.proposal_count + 1 := by omega
      rw [this, createStep_vals_self]
    | succ i2 =>
      have h2 : i2 < tl.length := by
        simp only [List.length_cons] at h
        omega
      have hrec := ih (createStep c p) i2 h2
      have hkey : (createStep c p).proposal_count + i2 + 1 =
          c.proposal_count + (i2 + 1) + 1 := by
        rw [createStep_count]
        omega
      rw [hkey] at hrec
      exact hrec

/-- Claim C5: after any sequence of `create_proposal` calls from the
default ledger, `get_proposal_count` equals the number of calls, the
stored ids are exactly `1 .. n` with no gaps, and the `i`-th call's text
sits under id `i` (creation order, first id is `1`, no reuse). -/
theorem claim_C5_dense_ids (l : List (AccountId × String)) :
    (createAll l).get_proposal_count = l.length ∧
    (∀ k, ((createAll l).proposal_vals k).isSome ↔ 1 ≤ k ∧ k ≤ l.length) ∧
    (∀ (i : Nat) (h : i < l.length),
      (createAll l).proposal_vals (i + 1) = some (l.get ⟨i, h⟩).2) := by
  refine ⟨?_, ?_, ?_⟩
  · show (l.foldl createStep Contract.default).proposal_count = l.length
    rw [createFold_count l Contract.default]
    simp [Contract.default]
  · intro k
    constructor
    · intro hk
      have hk' : ((l.foldl createStep Contract.default).proposal_vals k).isSome :=
        hk
      rcases Nat.lt_or_ge k 1 with hk1 | hk1
      · rw [createFold_vals_low l Contract.default k
            (by simp [Contract.default]; omega)] at hk'
        simp [Contract.default] at hk'
      · rcases Nat.lt_or_ge l.length k with hk2 | hk2
        · rw [createFold_vals_high l Contract.default k
              (by simp [Contract.default]; omega)] at hk'
          simp [Contract.default] at hk'
        · exact ⟨hk1, hk2⟩
    · intro hk
      obtain ⟨hk1, hk2⟩ := hk
      have h2 : k - 1 < l.length := by omega
      have hrec := createFold_vals_new l Contract.default (k - 1) h2
      have hkey : Contract.default.proposal_count + (k - 1) + 1 = k := by
        simp only [Contract.default]
        omega
      rw [hkey] at hrec
      show (l.foldl createStep Contract.default |>.proposal_vals k).isSome
      rw [hrec]
      rfl
  · intro i h
    have hrec := createFold_vals_new l Contract.default i h
    have hkey : Contract.default.proposal_count + i + 1 = i + 1 := by
      simp only [Contract.default]
      omega
    rw [hkey] at hrec
    exact hrec

/-! ### create_proposal's return value (claim C9) -/

lemma unit_ne_nat : (Unit : Type) ≠ Nat := by
  intro h
  have hsub : Subsingleton Nat := h ▸ (inferInstance : Subsingleton Unit)
  exact absurd (@Subsingleton.elim Nat hsub 0 1) (by decide)

/-- Claim C9 counterexample: the value returned by `create_proposal` is
the unit value of its `()`-typed Rust method, so it is not (and cannot
even be heterogeneously equal to) the first proposal's id `1`: the
source method has no return value at all. -/
theorem claim_C9_counterexample :
    ¬ HEq (Contract.default.create_proposal "harry.near" "pets").2 (1 : Nat) := by
  intro h
  exact unit_ne_nat (type_eq_of_heq h)

/-- Claim C9 (amended): `create_proposal` always succeeds and allocates
the post-increment counter value as the id (first proposal gets id `1`),
storing text, owner and an empty vote vector under it — but the method
returns no value (`()`), the id being observable only through state. -/
theorem claim_C9_create_allocates (c : Contract) (caller : AccountId)
    (text : String) :
    (c.create_proposal caller text).2 = () ∧
    (c.create_proposal caller text).1.proposal_count = c.proposal_count + 1 ∧
    (c.create_proposal caller text).1.proposal_vals (c.proposal_count + 1) =
      some text ∧
    (c.create_proposal caller text).1.proposal_owners (c.proposal_count + 1) =
      some caller ∧
    (c.create_proposal caller text).1.proposal_votes (c.proposal_count + 1) =
      some [] ∧
    (Contract.default.create_proposal caller text).1.get_proposal_count = 1 := by
  refine ⟨rfl, rfl, ?_, ?_, ?_, rfl⟩ <;> simp [Contract.create_proposal]

/-! ### Concrete states for the witnesses -/

/-- A one-proposal ledger whose open proposal 1 (owner `harry.near`)
holds the boundary vote vector `[true, true, false, false]`. -/
def cOpenW : Contract where
  proposal_count := 1
  successful_proposal_count := 0
  rejected_proposal_count := 0
  proposal_vals := mapInsert (fun _ => none) 1 "pets"
  proposal_owners := mapInsert (fun _ => none) 1 "harry.near"
  proposal_votes := mapInsert (fun _ => none) 1
    [("kurt.near", true), ("weiler.near", true), ("brandon.near", false),
     ("snow.near", false)]
  proposal_fate := fun _ => none

/-- A one-proposal ledger whose open proposal 1 has two opposing votes
and no supporting vote. -/
def cNoYesW : Contract where
  proposal_count := 1
  successful_proposal_count := 0
  rejected_proposal_count := 0
  proposal_vals := mapInsert (fun _ => none) 1 "pets"
  proposal_owners := mapInsert (fun _ => none) 1 "harry.near"
  proposal_votes := mapInsert (fun _ => none) 1
    [("kurt.near", false), ("weiler.near", false)]
  proposal_fate := fun _ => none

/-- `cOpenW` with proposal 1 already resolved as accepted. -/
def cClosedW : Contract :=
  { cOpenW with proposal_fate := mapInsert cOpenW.proposal_fate 1 true }

/-- A reachable ledger: create proposal 1 and close it (zero votes, so
it is accepted and its fate is `some true`). -/
def cReachW : Contract :=
  Contract.applyAction
    (Contract.applyAction Contract.default (.create "harry.near" "pets"))
    (.close "harry.near" 1)

lemma cReachW_reachable : Reachable cReachW :=
  Reachable.step _ (Reachable.step _ Reachable.init)

/-! ### Witnesses -/

/-- Witness for claim C1 at the spec's boundary case: 2 yes out of 4
votes closes as accepted (`2*2 >= 4`). -/
theorem claim_C1_close_majority_witness :
    cOpenW.close_proposal "harry.near" 1 =
      .ok ({ cOpenW with
              proposal_fate := mapInsert cOpenW.proposal_fate 1 true
              successful_proposal_count := 1 }, true) :=
  (claim_C1_close_majority cOpenW "harry.near" 1 "pets"
    [("kurt.near", true), ("weiler.near", true), ("brandon.near", false),
     ("snow.near", false)] rfl rfl rfl rfl).2.1 (by decide)

/-- Witness for claim C2: voiding a proposal with two opposing votes and
no supporting vote succeeds, rejecting it. -/
theorem claim_C2_void_when_no_yes_witness :
    cNoYesW.void_proposal "harry.near" 1 =
      .ok ({ cNoYesW with
              proposal_fate := mapInsert cNoYesW.proposal_fate 1 false
              rejected_proposal_count := 1 }, true) :=
  (claim_C2_void_when_no_yes cNoYesW "harry.near" 1 "pets"
    [("kurt.near", false), ("weiler.near", false)] rfl rfl rfl rfl).1
    (by decide)

/-- Witness for claim C3: on the reachable ledger whose proposal 1 is
resolved, a vote, a re-close and a void all fail with `AlreadyClosed`. -/
theorem claim_C3_fate_write_once_witness :
    cReachW.vote_on_proposal "mikky.near" 1 true = .error .alreadyClosed ∧
    cReachW.close_proposal "harry.near" 1 = .error .alreadyClosed ∧
    cReachW.void_proposal "harry.near" 1 = .error .alreadyClosed :=
  ⟨((claim_C3_fate_write_once cReachW 1 cReachW_reachable).1 true
      rfl).1 "mikky.near" true,
   ((claim_C3_fate_write_once cReachW 1 cReachW_reachable).1 true
      rfl).2.1 "harry.near",
   ((claim_C3_fate_write_once cReachW 1 cReachW_reachable).1 true
      rfl).2.2.1 "harry.near"⟩

/-- Witness for claim C4: on the reachable ledger with one accepted
proposal the counters add up to the one resolved fate. -/
theorem claim_C4_counter_sum_witness :
    cReachW.successful_proposal_count + cReachW.rejected_proposal_count =
      resolvedCount cReachW :=
  (claim_C4_counter_sum cReachW cReachW_reachable).1

/-- Witness for claim C5: two creations yield count 2 and texts stored
under ids 1 and 2 in creation order. -/
theorem claim_C5_dense_ids_witness :
    (createAll [("harry.near", "pets"), ("mikky.near", "cats")]).get_proposal_count = 2 ∧
    (createAll [("harry.near", "pets"), ("mikky.near", "cats")]).proposal_vals 1 =
      some "pets" ∧
    (createAll [("harry.near", "pets"), ("mikky.near", "cats")]).proposal_vals 2 =
      some "cats" :=
  ⟨(claim_C5_dense_ids [("harry.near", "pets"), ("mikky.near", "cats")]).1,
   (claim_C5_dense_ids [("harry.near", "pets"), ("mikky.near", "cats")]).2.2 0
     (by decide),
   (claim_C5_dense_ids [("harry.near", "pets"), ("mikky.near", "cats")]).2.2 1
     (by decide)⟩

/-- Witness for claim C6: a non-owner close of the open proposal 1 fails
with `NotAuthorized` and the ledger is exactly unchanged. -/
theorem claim_C6_atomic_abort_witness :
    cOpenW.close_proposal "mikky.near" 1 = .error .notAuthorized ∧
    cOpenW.applyAction (.close "mikky.near" 1) = cOpenW :=
  ⟨(claim_C6_atomic_abort cOpenW "mikky.near" "harry.near" 1 "pets"
      rfl rfl rfl (by decide)).1,
   (claim_C6_atomic_abort cOpenW "mikky.near" "harry.near" 1 "pets"
      rfl rfl rfl (by decide)).2.1⟩

/-- Witness for claim C7: querying the votes of the nonexistent
proposal 7 on the default ledger returns the empty sequence. -/
theorem claim_C7_get_all_votes_total_witness :
    Contract.default.get_all_votes 7 = [] :=
  (claim_C7_get_all_votes_total Contract.default 7 Reachable.init).1 rfl

/-- Witness for claim C8: the owner voting a second time on their own
proposal appends the new pair after the four existing votes. -/
theorem claim_C8_vote_appends_witness :
    cOpenW.vote_on_proposal "harry.near" 1 true =
      .ok ({ cOpenW with
              proposal_votes :=
                mapInsert (mapRemove cOpenW.proposal_votes 1) 1
                  ([("kurt.near", true), ("weiler.near", true),
                    ("brandon.near", false), ("snow.near", false)] ++
                   [("harry.near", true)]) }, ()) :=
  (claim_C8_vote_appends cOpenW "harry.near" 1 true "pets"
    [("kurt.near", true), ("weiler.near", true), ("brandon.near", false),
     ("snow.near", false)] rfl rfl rfl).1

/-- Witness for claim C10: an unknown id fails `NotFound`, and a
non-owner hitting an already-resolved proposal gets `AlreadyClosed`,
not `NotAuthorized`. -/
theorem claim_C10_check_order_witness :
    Contract.default.close_proposal "mikky.near" 3 = .error .notFound ∧
    cClosedW.close_proposal "mikky.near" 1 = .error .alreadyClosed ∧
    cClosedW.void_proposal "mikky.near" 1 = .error .alreadyClosed :=
  ⟨((claim_C10_check_order Contract.default "mikky.near" 3).1 rfl).1,
   ((claim_C10_check_order cClosedW "mikky.near" 1).2.1 "pets" true
      rfl rfl).1,
   ((claim_C10_check_order cClosedW "mikky.near" 1).2.1 "pets" true
      rfl rfl).2⟩

end NVoter
